import Mathlib

/-!
Verification of the connection-pooling and streaming-transfer layer of the
xrootd rclone backend.  The development shallowly embeds the two Go adapter
variants (the pooled one in `src/unnamed/part_000` and the legacy one in
`src/backend/xrootd/xrootd.go`): pure fragments become Lean functions,
stateful fragments become explicit state passing, remote calls become
environment-supplied outcomes, and Go runtime panics become `Option.none`
results.
-/

namespace Xrootd

/-- Error values flowing through the adapter: the sentinel errors of the
rclone `fs` package, `io.EOF`, opaque remote/client errors (`remote code`),
and `errors.Wrap msg cause`. -/
inductive XErr where
  | eof
  | dirNotFound
  | objectNotFound
  | notAFile
  | isFile
  | directoryNotEmpty
  | dirExists
  | cantMove
  | cantDirMove
  | unsupportedHash
  | lengthMismatch
  | parseFail
  | remote (code : Nat)
  | wrapped (msg : String) (cause : XErr)
deriving DecidableEq, Repr

/-- `conn` of the pooled variant: an xrootd client together with its recorded
last error (`err`).  The `id` identifies the underlying client instance so
that "the same session" is expressible across pool operations. -/
structure Conn where
  id : Nat
  err : Option XErr
deriving DecidableEq, Repr

/-- The mutable state owned by `Fs` (`poolMu`/`pool`), extended with the
bookkeeping needed to state the pool invariant: `held` are the connections
currently checked out by callers, `nextId` numbers freshly dialed clients,
and `errored` records the ids of connections that were released with a
non-nil error (and hence closed). -/
structure PoolSt where
  pool : List Conn
  held : List Conn
  nextId : Nat
  errored : List Nat
deriving DecidableEq, Repr

/-- The empty pool of a freshly constructed `Fs`. -/
def initSt : PoolSt := ⟨[], [], 0, []⟩

/-- The pop loop of `getXrootdConnection`: take entries from the front of
`f.pool`, discarding (closing) any whose `err` field is non-nil, until a
clean connection is found or the pool is exhausted. -/
def popConn : List Conn → Option Conn × List Conn
  | [] => (none, [])
  | c :: rest => if c.err = none then (some c, rest) else popConn rest

/-- `getXrootdConnection`: reuse a pooled connection when one is available,
otherwise dial a new client (`XrootdConnection`); `dialOk` tells whether the
dial succeeds.  Returns the connection handed to the caller (none when the
pool is empty and the dial fails) and the new state. -/
def acquireStep (s : PoolSt) (dialOk : Bool) : Option Conn × PoolSt :=
  match popConn s.pool with
  | (some c, rest) =>
      (some c,
        { s with
          pool := rest
          held := c :: s.held })
  | (none, rest) =>
      if dialOk then
        (some ⟨s.nextId, none⟩,
          { s with
            pool := rest
            held := ⟨s.nextId, none⟩ :: s.held
            nextId := s.nextId + 1 })
      else (none, { s with pool := rest })

/-- `ConnectionFree`: record the operation outcome `e` on the connection
(`c.err = err`); a non-nil error closes the client (its id joins `errored`),
a nil error appends the connection to the tail of the idle pool.  The
`c ∈ s.held` guard models the acquire/release discipline (a caller only
releases a connection it holds). -/
def connectionFree (s : PoolSt) (c : Conn) (e : Option XErr) : PoolSt :=
  if c ∈ s.held then
    match e with
    | some _ =>
        { s with
          held := s.held.erase c
          errored := c.id :: s.errored }
    | none =>
        { s with
          held := s.held.erase c
          pool := s.pool ++ [{ c with err := none }] }
  else s

/-- One pool operation: an acquire (with the dial outcome used when the pool
is empty) or a release reporting outcome `e`. -/
inductive PoolOp where
  | acq (dialOk : Bool)
  | free (c : Conn) (e : Option XErr)
deriving DecidableEq, Repr

/-- Effect of one operation on the pool state. -/
def poolStep (s : PoolSt) : PoolOp → PoolSt
  | .acq dialOk => (acquireStep s dialOk).2
  | .free c e => connectionFree s c e

/-- Run a sequence of acquire/release operations. -/
def runPool (s : PoolSt) (ops : List PoolOp) : PoolSt := ops.foldl poolStep s

/-- The pool invariant: idle connections carry no recorded error, live ids
are below `nextId` and pairwise distinct, and no closed (errored) id is
still attached to a live connection. -/
def PoolInv (s : PoolSt) : Prop :=
  (∀ c ∈ s.pool, c.err = none) ∧
  (∀ c ∈ s.pool, c.id < s.nextId) ∧
  (∀ c ∈ s.held, c.id < s.nextId) ∧
  (∀ i ∈ s.errored, i < s.nextId) ∧
  ((s.pool ++ s.held).map Conn.id).Nodup ∧
  (∀ i ∈ s.errored, ∀ c ∈ s.pool, c.id ≠ i) ∧
  (∀ i ∈ s.errored, ∀ c ∈ s.held, c.id ≠ i)

/-- The connection returned by an acquire in state `s` when dialing works. -/
def acquireResult (s : PoolSt) : Option Conn := (acquireStep s true).1

theorem popConn_mem (l : List Conn) (c : Conn) (r : List Conn)
    (h : popConn l = (some c, r)) : c ∈ l := by
  induction l with
  | nil => simp [popConn] at h
  | cons d rest ih =>
    by_cases hd : d.err = none
    · simp only [popConn, if_pos hd, Prod.mk.injEq, Option.some.injEq] at h
      exact h.1 ▸ List.mem_cons_self d rest
    · simp only [popConn, if_neg hd] at h
      exact List.mem_cons_of_mem d (ih h)

theorem poolInv_init : PoolInv initSt := by
  unfold PoolInv initSt
  simp

/-- Moving one checked-out connection out of `held` permutes the live ids. -/
theorem combined_perm_erase (pool held : List Conn) (c : Conn) (hc : c ∈ held) :
    List.Perm ((pool ++ held).map Conn.id)
      (c.id :: (pool ++ held.erase c).map Conn.id) := by
  have h1 : List.Perm held (c :: held.erase c) := List.perm_cons_erase hc
  have h2 : List.Perm (pool ++ held) (c :: (pool ++ held.erase c)) :=
    (h1.append_left pool).trans List.perm_middle
  simpa using h2.map Conn.id

theorem poolInv_step (s : PoolSt) (op : PoolOp) (h : PoolInv s) :
    PoolInv (poolStep s op) := by
  obtain ⟨hclean, hplt, hhlt, herrlt, hnd, hdp, hdh⟩ := h
  cases op with
  | acq dialOk =>
    cases hp : s.pool with
    | nil =>
      have hpop : popConn s.pool = (none, []) := by rw [hp]; rfl
      cases dialOk with
      | false =>
        have hstep : poolStep s (.acq false) = { s with pool := [] } := by
          simp [poolStep, acquireStep, hpop]
        rw [hstep]
        exact ⟨by simp, by simp, hhlt, herrlt, by simpa [hp] using hnd,
          by simp, hdh⟩
      | true =>
        have hstep : poolStep s (.acq true) =
            { s with
              pool := []
              held := ⟨s.nextId, none⟩ :: s.held
              nextId := s.nextId + 1 } := by
          simp [poolStep, acquireStep, hpop]
        rw [hstep]
        refine ⟨by simp, by simp, ?_, ?_, ?_, by simp, ?_⟩
        · intro c hcm
          simp only [List.mem_cons] at hcm
          rcases hcm with rfl | hcm
          · simp only []
            omega
          · exact Nat.lt_succ_of_lt (hhlt c hcm)
        · intro i hi
          exact Nat.lt_succ_of_lt (herrlt i hi)
        · simp only [List.nil_append, List.map_cons, List.nodup_cons]
          constructor
          · intro hmem
            rcases List.mem_map.mp hmem with ⟨d, hd, hdid⟩
            have := hhlt d hd
            omega
          · simpa [hp] using hnd
        · intro i hi c hcm
          simp only [List.mem_cons] at hcm
          rcases hcm with rfl | hcm
          · have := herrlt i hi
            simp only []
            omega
          · exact hdh i hi c hcm
    | cons c rest =>
      have hcerr : c.err = none := hclean c (by rw [hp]; exact List.mem_cons_self c rest)
      have hpop : popConn s.pool = (some c, rest) := by
        rw [hp]; simp [popConn, hcerr]
      have hstep : poolStep s (.acq dialOk) =
          { s with
            pool := rest
            held := c :: s.held } := by
        simp [poolStep, acquireStep, hpop]
      rw [hstep]
      have hcp : c ∈ s.pool := by rw [hp]; exact List.mem_cons_self c rest
      have hrest : ∀ d ∈ rest, d ∈ s.pool := by
        intro d hd; rw [hp]; exact List.mem_cons_of_mem c hd
      have hperm : List.Perm ((rest ++ c :: s.held).map Conn.id)
          ((s.pool ++ s.held).map Conn.id) := by
        rw [hp]
        exact List.perm_middle.map Conn.id
      refine ⟨?_, ?_, ?_, herrlt, ?_, ?_, ?_⟩
      · intro d hd
        exact hclean d (hrest d hd)
      · intro d hd
        exact hplt d (hrest d hd)
      · intro d hd
        simp only [List.mem_cons] at hd
        rcases hd with rfl | hd
        · exact hplt d hcp
        · exact hhlt d hd
      · exact hperm.symm.nodup hnd
      · intro i hi d hd
        exact hdp i hi d (hrest d hd)
      · intro i hi d hd
        simp only [List.mem_cons] at hd
        rcases hd with rfl | hd
        · exact hdp i hi d hcp
        · exact hdh i hi d hd
  | free c e =>
    by_cases hc : c ∈ s.held
    · have hperm := combined_perm_erase s.pool s.held c hc
      have hnodup2 := hperm.nodup hnd
      rw [List.nodup_cons] at hnodup2
      obtain ⟨hcid_not, hndrest⟩ := hnodup2
      have hcidlt : c.id < s.nextId := hhlt c hc
      have herase_sub : ∀ d ∈ s.held.erase c, d ∈ s.held := fun d hd =>
        List.mem_of_mem_erase hd
      have hcid_not_pool : ∀ d ∈ s.pool, d.id ≠ c.id := by
        intro d hd heq
        exact hcid_not (List.mem_map.mpr ⟨d, List.mem_append_left _ hd, heq⟩)
      have hcid_not_erase : ∀ d ∈ s.held.erase c, d.id ≠ c.id := by
        intro d hd heq
        exact hcid_not (List.mem_map.mpr ⟨d, List.mem_append_right _ hd, heq⟩)
      cases e with
      | some errv =>
        have hstep : poolStep s (.free c (some errv)) =
            { s with
              held := s.held.erase c
              errored := c.id :: s.errored } := by
          simp [poolStep, connectionFree, hc]
        rw [hstep]
        refine ⟨hclean, hplt, ?_, ?_, ?_, ?_, ?_⟩
        · intro d hd
          exact hhlt d (herase_sub d hd)
        · intro i hi
          simp only [List.mem_cons] at hi
          rcases hi with rfl | hi
          · exact hcidlt
          · exact herrlt i hi
        · simpa using hndrest
        · intro i hi d hd
          simp only [List.mem_cons] at hi
          rcases hi with rfl | hi
          · exact hcid_not_pool d hd
          · exact hdp i hi d hd
        · intro i hi d hd
          simp only [List.mem_cons] at hi
          rcases hi with rfl | hi
          · exact hcid_not_erase d hd
          · exact hdh i hi d (herase_sub d hd)
      | none =>
        have hstep : poolStep s (.free c none) =
            { s with
              held := s.held.erase c
              pool := s.pool ++ [{ c with err := none }] } := by
          simp [poolStep, connectionFree, hc]
        rw [hstep]
        have hperm3 : List.Perm (((s.pool ++ [({ c with err := none } : Conn)]) ++
            s.held.erase c).map Conn.id)
            (c.id :: (s.pool ++ s.held.erase c).map Conn.id) := by
          have hmid : List.Perm ((s.pool ++ [({ c with err := none } : Conn)]) ++
              s.held.erase c)
              (({ c with err := none } : Conn) :: (s.pool ++ s.held.erase c)) := by
            rw [List.append_assoc]
            exact List.perm_middle
          simp only [List.map_cons] at *
          exact hmid.map Conn.id
        refine ⟨?_, ?_, ?_, herrlt, ?_, ?_, ?_⟩
        · intro d hd
          simp only [List.mem_append, List.mem_singleton] at hd
          rcases hd with hd | rfl
          · exact hclean d hd
          · rfl
        · intro d hd
          simp only [List.mem_append, List.mem_singleton] at hd
          rcases hd with hd | rfl
          · exact hplt d hd
          · exact hcidlt
        · intro d hd
          exact hhlt d (herase_sub d hd)
        · exact hperm3.symm.nodup (List.nodup_cons.mpr ⟨hcid_not, hndrest⟩)
        · intro i hi d hd heq
          simp only [List.mem_append, List.mem_singleton] at hd
          rcases hd with hd | rfl
          · exact hdp i hi d hd heq
          · exact hdh i hi c hc heq
        · intro i hi d hd
          exact hdh i hi d (herase_sub d hd)
    · have hstep : poolStep s (.free c e) = s := by
        simp [poolStep, connectionFree, hc]
      rw [hstep]
      exact ⟨hclean, hplt, hhlt, herrlt, hnd, hdp, hdh⟩

theorem poolInv_run (s : PoolSt) (ops : List PoolOp) (h : PoolInv s) :
    PoolInv (runPool s ops) := by
  induction ops generalizing s with
  | nil => exact h
  | cons op rest ih => exact ih _ (poolInv_step s op h)

theorem errored_mono_step (s : PoolSt) (op : PoolOp) (i : Nat)
    (h : i ∈ s.errored) : i ∈ (poolStep s op).errored := by
  cases op with
  | acq dialOk =>
    rcases hpc : popConn s.pool with ⟨oc, rest⟩
    cases oc with
    | some c =>
      have hstep : poolStep s (.acq dialOk) =
          { s with
            pool := rest
            held := c :: s.held } := by
        simp [poolStep, acquireStep, hpc]
      rw [hstep]
      exact h
    | none =>
      cases dialOk with
      | false =>
        have hstep : poolStep s (.acq false) = { s with pool := rest } := by
          simp [poolStep, acquireStep, hpc]
        rw [hstep]
        exact h
      | true =>
        have hstep : poolStep s (.acq true) =
            { s with
              pool := rest
              held := ⟨s.nextId, none⟩ :: s.held
              nextId := s.nextId + 1 } := by
          simp [poolStep, acquireStep, hpc]
        rw [hstep]
        exact h
  | free c e =>
    by_cases hc : c ∈ s.held
    · cases e with
      | some errv =>
        have hstep : poolStep s (.free c (some errv)) =
            { s with
              held := s.held.erase c
              errored := c.id :: s.errored } := by
          simp [poolStep, connectionFree, hc]
        rw [hstep]
        exact List.mem_cons_of_mem _ h
      | none =>
        have hstep : poolStep s (.free c none) =
            { s with
              held := s.held.erase c
              pool := s.pool ++ [{ c with err := none }] } := by
          simp [poolStep, connectionFree, hc]
        rw [hstep]
        exact h
    · have hstep : poolStep s (.free c e) = s := by
        simp [poolStep, connectionFree, hc]
      rw [hstep]
      exact h

theorem errored_mono_run (s : PoolSt) (ops : List PoolOp) (i : Nat)
    (h : i ∈ s.errored) : i ∈ (runPool s ops).errored := by
  induction ops generalizing s with
  | nil => exact h
  | cons op rest ih => exact ih _ (errored_mono_step s op i h)

/-- C1.  Pool invariant: along any sequence of acquire/release operations
from the empty pool, every connection sitting in the idle pool has a nil
recorded error, and once a connection is released with a non-nil error
(`ConnectionFree` closes it without appending it), no subsequent acquire
(`getXrootdConnection`, which discards errored entries when popping and
otherwise dials a brand-new client) ever returns that session again. -/
theorem connectionFree_pool_invariant (ops1 ops2 : List PoolOp) (c : Conn) (e : XErr)
    (hc : c ∈ (runPool initSt ops1).held) :
    (∀ d ∈ (runPool initSt (ops1 ++ PoolOp.free c (some e) :: ops2)).pool,
        d.err = none) ∧
    (∀ d ∈ (runPool initSt (ops1 ++ PoolOp.free c (some e) :: ops2)).pool,
        d.id ≠ c.id) ∧
    (∀ d, acquireResult (runPool initSt (ops1 ++ PoolOp.free c (some e) :: ops2)) = some d →
        d.id ≠ c.id) := by
  have hrun : runPool initSt (ops1 ++ PoolOp.free c (some e) :: ops2) =
      runPool (poolStep (runPool initSt ops1) (PoolOp.free c (some e))) ops2 := by
    simp [runPool, List.foldl_append]
  set s1 := runPool initSt ops1 with hs1
  set s2 := poolStep s1 (PoolOp.free c (some e)) with hs2
  have hinv1 : PoolInv s1 := poolInv_run _ _ poolInv_init
  have hinv2 : PoolInv s2 := poolInv_step _ _ hinv1
  have herr2 : c.id ∈ s2.errored := by
    rw [hs2]
    simp [poolStep, connectionFree, hc]
  have hinv3 : PoolInv (runPool s2 ops2) := poolInv_run _ _ hinv2
  have herr3 : c.id ∈ (runPool s2 ops2).errored := errored_mono_run _ _ _ herr2
  obtain ⟨hclean, hplt, hhlt, herrlt, hnd, hdp, hdh⟩ := hinv3
  rw [hrun]
  refine ⟨hclean, ?_, ?_⟩
  · intro d hd
    exact hdp c.id herr3 d hd
  · intro d hacq heq
    rw [acquireResult, acquireStep] at hacq
    rcases hpc : popConn (runPool s2 ops2).pool with ⟨oc, rest⟩
    rw [hpc] at hacq
    cases oc with
    | some c0 =>
      simp only [Option.some.injEq] at hacq
      have hmem : d ∈ (runPool s2 ops2).pool := hacq ▸ popConn_mem _ _ _ hpc
      exact hdp c.id herr3 d hmem heq
    | none =>
      simp only [if_pos, Option.some.injEq] at hacq
      have hdid : d.id = (runPool s2 ops2).nextId := by rw [← hacq]
      have := herrlt c.id herr3
      omega

/-- Witness for `connectionFree_pool_invariant`: acquire a connection, release
it with an error, acquire again; the errored session (id 0) is gone. -/
theorem connectionFree_pool_invariant_witness :
    (∀ d ∈ (runPool initSt ([PoolOp.acq true] ++
        PoolOp.free ⟨0, none⟩ (some (XErr.remote 1)) :: [PoolOp.acq true])).pool,
        d.err = none) ∧
    (∀ d ∈ (runPool initSt ([PoolOp.acq true] ++
        PoolOp.free ⟨0, none⟩ (some (XErr.remote 1)) :: [PoolOp.acq true])).pool,
        d.id ≠ (⟨0, none⟩ : Conn).id) ∧
    (∀ d, acquireResult (runPool initSt ([PoolOp.acq true] ++
        PoolOp.free ⟨0, none⟩ (some (XErr.remote 1)) :: [PoolOp.acq true])) = some d →
        d.id ≠ (⟨0, none⟩ : Conn).id) :=
  connectionFree_pool_invariant [PoolOp.acq true] [PoolOp.acq true]
    ⟨0, none⟩ (XErr.remote 1) (by decide)

/-! ## The Update stream loop (TransferEngine)

`Object.Update` reads chunks of at most `size_copy_buffer_kb` KiB from the
input source and writes each chunk at the current byte offset.  A read
result is the delivered chunk `data[:n]` together with the returned error
(`nil`, `io.EOF`, or a real failure); write outcomes are supplied per turn
by an environment function `wf`. -/

/-- One result of `in.Read(data)`: the chunk `data[:n]` actually delivered
and the accompanying error. -/
structure ReadStep where
  chunk : List Nat
  err : Option XErr
deriving DecidableEq, Repr

/-- All-writes-succeed environment. -/
def wfOk : Nat → Option XErr := fun _ => none

/-- How the pooled variant's stream loop exits: a non-EOF read error
(`errClient = err_read`), a write error (`errClient = err_write`), or the
EOF break; `starved` marks the model artifact of a reader that never
reports EOF.  Each exit carries the number of `Read` calls performed;
`eofDone` also carries the final `index` (bytes written) and `turn`. -/
inductive PooledExit where
  | readFail (e : XErr) (reads : Nat)
  | writeFail (e : XErr) (reads : Nat)
  | eofDone (index turn reads : Nat)
  | starved
deriving DecidableEq, Repr

/-- The `for` loop of the pooled `Object.Update`: read; abort on a non-EOF
read error before writing; write `data[:n]` at `index` (abort on write
error); `index += n; turn += 1`; break after the write when the read
returned EOF. -/
def streamLoopPooled (wf : Nat → Option XErr) :
    List ReadStep → Nat → Nat → Nat → PooledExit
  | [], _, _, _ => .starved
  | r :: rest, index, turn, reads =>
    match r.err with
    | some e =>
      if e = .eof then
        match wf turn with
        | some we => .writeFail we (reads + 1)
        | none => .eofDone (index + r.chunk.length) (turn + 1) (reads + 1)
      else .readFail e (reads + 1)
    | none =>
      match wf turn with
      | some we => .writeFail we (reads + 1)
      | none => streamLoopPooled wf rest (index + r.chunk.length) (turn + 1) (reads + 1)

/-- One step of the adler32 rolling checksum (modulus 65521). -/
def adler32Step (s : Nat × Nat) (d : Nat) : Nat × Nat :=
  ((s.1 + d) % 65521, (s.2 + (s.1 + d) % 65521) % 65521)

/-- `checksum.Write(bytes)`: fold the rolling update over a chunk. -/
def adler32Upd (s : Nat × Nat) (bytes : List Nat) : Nat × Nat :=
  bytes.foldl adler32Step s

/-- `adler32.New()` starts from a = 1, b = 0. -/
def adler32Init : Nat × Nat := (1, 0)

/-- `Sum32()` packs the two accumulators as `b<<16 | a`. -/
def adlerSum32 (s : Nat × Nat) : Nat := s.2 * 65536 + s.1

/-- Lowercase hex digit. -/
def hexDigitChar (n : Nat) : Char :=
  if n < 10 then Char.ofNat (48 + n) else Char.ofNat (87 + n)

/-- Minimal-width lowercase hex digits of `n` (fuel-bounded; 8 digits cover
a uint32). -/
def natToHexAux : Nat → Nat → List Char
  | 0, _ => []
  | fuel + 1, n =>
    if n = 0 then []
    else natToHexAux fuel (n / 16) ++ [hexDigitChar (n % 16)]

/-- `fmt.Sprintf("%x", n)` for a uint32 value: minimal width, lowercase,
`"0"` for zero (no zero-padding to 8 characters). -/
def natToHex (n : Nat) : String :=
  if n = 0 then "0" else String.mk (natToHexAux 8 n)

/-- Exit of the legacy variant's stream loop; `eofDone` also carries the
final checksum accumulator. -/
inductive LegacyExit where
  | readFail (e : XErr) (reads : Nat)
  | writeFail (e : XErr) (reads : Nat)
  | eofDone (index turn reads : Nat) (acc : Nat × Nat)
  | starved
deriving DecidableEq, Repr

/-- The `for` loop of the legacy `Object.Update`: same shape as the pooled
loop, except that each written chunk is also fed to the adler32
accumulator (`checksum.Write(data[:n])`). -/
def streamLoopLegacy (wf : Nat → Option XErr) :
    List ReadStep → Nat → Nat → Nat → Nat × Nat → LegacyExit
  | [], _, _, _, _ => .starved
  | r :: rest, index, turn, reads, acc =>
    match r.err with
    | some e =>
      if e = .eof then
        match wf turn with
        | some we => .writeFail we (reads + 1)
        | none =>
            .eofDone (index + r.chunk.length) (turn + 1) (reads + 1)
              (adler32Upd acc r.chunk)
      else .readFail e (reads + 1)
    | none =>
      match wf turn with
      | some we => .writeFail we (reads + 1)
      | none =>
          streamLoopLegacy wf rest (index + r.chunk.length) (turn + 1) (reads + 1)
            (adler32Upd acc r.chunk)

/-- Outcomes of the remote calls made after the stream loop. -/
structure UpdEnv where
  closeErr : Option XErr
  setModTimeErr : Option XErr
deriving DecidableEq, Repr

/-- All-success post-loop environment. -/
def envOk : UpdEnv := ⟨none, none⟩

/-- What an `Update` run produced: the returned error, whether the
best-effort `remove()` cleanup was invoked (its own error is swallowed),
the value of `o.hash` when `Update` returns, and the `turn` divisor used
by the `avg buff size` diagnostic when that division is reached. -/
structure UpdOut where
  err : Option XErr
  removeInvoked : Bool
  publishedHash : String
  diagDivisor : Option Nat
deriving DecidableEq, Repr

/-- The pooled `Object.Update` after a successful open: run the stream
loop; on a read or write error call `remove()` and return the bare
original error (`errClient`); on EOF evaluate the `index/turn` diagnostic,
close the remote file (close failure triggers `remove()` and a wrapped
error), then `SetModTime`.  `o.hash` is cleared on entry and never set in
this variant.  `none` models the reader running dry (never happens for a
well-formed reader). -/
def updatePooled (wf : Nat → Option XErr) (rs : List ReadStep) (env : UpdEnv) :
    Option UpdOut :=
  match streamLoopPooled wf rs 0 0 0 with
  | .starved => none
  | .readFail e _ => some ⟨some e, true, "", none⟩
  | .writeFail e _ => some ⟨some e, true, "", none⟩
  | .eofDone _ turn _ =>
    match env.closeErr with
    | some ce => some ⟨some (.wrapped "could not close output file" ce), true, "", some turn⟩
    | none =>
      match env.setModTimeErr with
      | some me => some ⟨some (.wrapped "Update: SetModTime failed" me), false, "", some turn⟩
      | none => some ⟨none, false, "", some turn⟩

/-- The legacy `Object.Update` after a successful open: the read-error path
returns the wrapped read error without invoking `remove()`; the
write-error path invokes `remove()`; after EOF the accumulated checksum is
published as `o.hash` (`fmt.Sprintf("%x", checksum.Sum32())`) before the
diagnostic division, the close and `SetModTime`. -/
def updateLegacy (wf : Nat → Option XErr) (rs : List ReadStep) (env : UpdEnv) :
    Option UpdOut :=
  match streamLoopLegacy wf rs 0 0 0 adler32Init with
  | .starved => none
  | .readFail e _ => some ⟨some (.wrapped "update: could not read data" e), false, "", none⟩
  | .writeFail e _ => some ⟨some (.wrapped "update: could not copy to output file" e), true, "", none⟩
  | .eofDone _ turn _ acc =>
    let h := natToHex (adlerSum32 acc)
    match env.closeErr with
    | some ce => some ⟨some (.wrapped "could not close output file" ce), true, h, some turn⟩
    | none =>
      match env.setModTimeErr with
      | some me => some ⟨some (.wrapped "Update: SetModTime failed" me), false, h, some turn⟩
      | none => some ⟨none, false, h, some turn⟩

/-- The bytes a reader delivers to the loop before (and including) the EOF
read, assuming no write failure interrupts: chunks of error-free reads,
plus the final chunk delivered together with EOF; a failing read delivers
nothing (the loop aborts before writing). -/
def deliveredBytes : List ReadStep → List Nat
  | [] => []
  | r :: rest =>
    match r.err with
    | some e => if e = .eof then r.chunk else []
    | none => r.chunk ++ deliveredBytes rest

theorem streamLoopPooled_eofDone_turn (wf : Nat → Option XErr) (rs : List ReadStep) :
    ∀ index turn reads i t r,
      streamLoopPooled wf rs index turn reads = .eofDone i t r → turn < t := by
  induction rs with
  | nil =>
    intro index turn reads i t r h
    simp [streamLoopPooled] at h
  | cons rstep rest ih =>
    intro index turn reads i t r h
    rcases rstep with ⟨chunk, rerr⟩
    cases rerr with
    | some e =>
      by_cases heof : e = XErr.eof
      · subst heof
        cases hw : wf turn with
        | some we => simp [streamLoopPooled, hw] at h
        | none =>
          simp [streamLoopPooled, hw] at h
          omega
      · simp [streamLoopPooled, heof] at h
    | none =>
      cases hw : wf turn with
      | some we => simp [streamLoopPooled, hw] at h
      | none =>
        simp only [streamLoopPooled, hw] at h
        have := ih _ _ _ _ _ _ h
        omega

theorem streamLoopLegacy_eofDone_turn (wf : Nat → Option XErr) (rs : List ReadStep) :
    ∀ index turn reads acc i t r a,
      streamLoopLegacy wf rs index turn reads acc = .eofDone i t r a → turn < t := by
  induction rs with
  | nil =>
    intro index turn reads acc i t r a h
    simp [streamLoopLegacy] at h
  | cons rstep rest ih =>
    intro index turn reads acc i t r a h
    rcases rstep with ⟨chunk, rerr⟩
    cases rerr with
    | some e =>
      by_cases heof : e = XErr.eof
      · subst heof
        cases hw : wf turn with
        | some we => simp [streamLoopLegacy, hw] at h
        | none =>
          simp [streamLoopLegacy, hw] at h
          omega
      · simp [streamLoopLegacy, heof] at h
    | none =>
      cases hw : wf turn with
      | some we => simp [streamLoopLegacy, hw] at h
      | none =>
        simp only [streamLoopLegacy, hw] at h
        have := ih _ _ _ _ _ _ _ _ h
        omega

/-- The two loops abort identically on a non-EOF read error. -/
theorem loops_agree_readFail (wf : Nat → Option XErr) (rs : List ReadStep) :
    ∀ index turn reads acc e n,
      streamLoopPooled wf rs index turn reads = .readFail e n →
      streamLoopLegacy wf rs index turn reads acc = .readFail e n := by
  induction rs with
  | nil =>
    intro index turn reads acc e n h
    simp [streamLoopPooled] at h
  | cons rstep rest ih =>
    intro index turn reads acc e n h
    rcases rstep with ⟨chunk, rerr⟩
    cases rerr with
    | some e0 =>
      by_cases heof : e0 = XErr.eof
      · subst heof
        cases hw : wf turn with
        | some we => simp [streamLoopPooled, hw] at h
        | none => simp [streamLoopPooled, hw] at h
      · simp only [streamLoopPooled, if_neg heof, PooledExit.readFail.injEq] at h
        simp only [streamLoopLegacy, if_neg heof, LegacyExit.readFail.injEq]
        exact h
    | none =>
      cases hw : wf turn with
      | some we => simp [streamLoopPooled, hw] at h
      | none =>
        simp only [streamLoopPooled, hw] at h
        simp only [streamLoopLegacy, hw]
        exact ih _ _ _ _ _ _ h

/-- An EOF exit of the legacy loop is an EOF exit of the pooled loop at the
same index, turn and read count. -/
theorem loops_agree_eofDone (wf : Nat → Option XErr) (rs : List ReadStep) :
    ∀ index turn reads acc i t r a,
      streamLoopLegacy wf rs index turn reads acc = .eofDone i t r a →
      streamLoopPooled wf rs index turn reads = .eofDone i t r := by
  induction rs with
  | nil =>
    intro index turn reads acc i t r a h
    simp [streamLoopLegacy] at h
  | cons rstep rest ih =>
    intro index turn reads acc i t r a h
    rcases rstep with ⟨chunk, rerr⟩
    cases rerr with
    | some e0 =>
      by_cases heof : e0 = XErr.eof
      · subst heof
        cases hw : wf turn with
        | some we => simp [streamLoopLegacy, hw] at h
        | none =>
          simp only [streamLoopLegacy, hw, LegacyExit.eofDone.injEq, if_true] at h
          obtain ⟨h1, h2, h3, -⟩ := h
          subst h1
          subst h2
          subst h3
          simp [streamLoopPooled, hw]
      · simp [streamLoopLegacy, heof] at h
    | none =>
      cases hw : wf turn with
      | some we => simp [streamLoopLegacy, hw] at h
      | none =>
        simp only [streamLoopLegacy, hw] at h
        simp only [streamLoopPooled, hw]
        exact ih _ _ _ _ _ _ _ _ h

/-- At an EOF exit the legacy accumulator is exactly the adler32 fold over
the bytes delivered by the reader. -/
theorem streamLoopLegacy_eofDone_acc (wf : Nat → Option XErr) (rs : List ReadStep) :
    ∀ index turn reads acc i t r a,
      streamLoopLegacy wf rs index turn reads acc = .eofDone i t r a →
      a = adler32Upd acc (deliveredBytes rs) := by
  induction rs with
  | nil =>
    intro index turn reads acc i t r a h
    simp [streamLoopLegacy] at h
  | cons rstep rest ih =>
    intro index turn reads acc i t r a h
    rcases rstep with ⟨chunk, rerr⟩
    cases rerr with
    | some e0 =>
      by_cases heof : e0 = XErr.eof
      · subst heof
        cases hw : wf turn with
        | some we => simp [streamLoopLegacy, hw] at h
        | none =>
          simp only [streamLoopLegacy, hw, LegacyExit.eofDone.injEq, if_true] at h
          obtain ⟨-, -, -, h4⟩ := h
          simp [deliveredBytes, ← h4]
      · simp [streamLoopLegacy, heof] at h
    | none =>
      cases hw : wf turn with
      | some we => simp [streamLoopLegacy, hw] at h
      | none =>
        simp only [streamLoopLegacy, hw] at h
        have := ih _ _ _ _ _ _ _ _ h
        rw [this]
        simp only [deliveredBytes, adler32Upd, List.foldl_append]

/-- C10.  A zero-length input (the single read returns zero bytes together
with EOF) drives the stream loop through exactly one read call, a single
zero-byte chunk write (final `index` 0) and one turn, in both variants;
and whenever the `avg buff size` diagnostic division `index/turn` is
reached, the `turn` divisor is at least 1, in both variants. -/
theorem update_zero_length_division_guard :
    streamLoopPooled wfOk [⟨[], some XErr.eof⟩] 0 0 0 = .eofDone 0 1 1 ∧
    streamLoopLegacy wfOk [⟨[], some XErr.eof⟩] 0 0 0 adler32Init = .eofDone 0 1 1 (1, 0) ∧
    (∀ (wf : Nat → Option XErr) (rs : List ReadStep) (env : UpdEnv) (out : UpdOut) (t : Nat),
      updatePooled wf rs env = some out → out.diagDivisor = some t → 1 ≤ t) ∧
    (∀ (wf : Nat → Option XErr) (rs : List ReadStep) (env : UpdEnv) (out : UpdOut) (t : Nat),
      updateLegacy wf rs env = some out → out.diagDivisor = some t → 1 ≤ t) := by
  refine ⟨rfl, rfl, ?_, ?_⟩
  · intro wf rs env out t hout hdiag
    rcases hexit : streamLoopPooled wf rs 0 0 0 with ⟨e, n⟩ | ⟨e, n⟩ | ⟨i, turn, r⟩ | _
    · have hv : updatePooled wf rs env = some ⟨some e, true, "", none⟩ := by
        rw [updatePooled, hexit]
      rw [hv] at hout
      simp only [Option.some.injEq] at hout
      rw [← hout] at hdiag
      simp at hdiag
    · have hv : updatePooled wf rs env = some ⟨some e, true, "", none⟩ := by
        rw [updatePooled, hexit]
      rw [hv] at hout
      simp only [Option.some.injEq] at hout
      rw [← hout] at hdiag
      simp at hdiag
    · have hturn : 0 < turn := streamLoopPooled_eofDone_turn wf rs 0 0 0 _ _ _ hexit
      rcases hce : env.closeErr with _ | ce
      · rcases hme : env.setModTimeErr with _ | me
        · have hv : updatePooled wf rs env = some ⟨none, false, "", some turn⟩ := by
            rw [updatePooled, hexit, hce, hme]
          rw [hv] at hout
          simp only [Option.some.injEq] at hout
          rw [← hout] at hdiag
          simp only [Option.some.injEq] at hdiag
          omega
        · have hv : updatePooled wf rs env =
              some ⟨some (.wrapped "Update: SetModTime failed" me), false, "", some turn⟩ := by
            rw [updatePooled, hexit, hce, hme]
          rw [hv] at hout
          simp only [Option.some.injEq] at hout
          rw [← hout] at hdiag
          simp only [Option.some.injEq] at hdiag
          omega
      · have hv : updatePooled wf rs env =
            some ⟨some (.wrapped "could not close output file" ce), true, "", some turn⟩ := by
          rw [updatePooled, hexit, hce]
        rw [hv] at hout
        simp only [Option.some.injEq] at hout
        rw [← hout] at hdiag
        simp only [Option.some.injEq] at hdiag
        omega
    · have hv : updatePooled wf rs env = none := by
        rw [updatePooled, hexit]
      rw [hv] at hout
      simp at hout
  · intro wf rs env out t hout hdiag
    rcases hexit : streamLoopLegacy wf rs 0 0 0 adler32Init with ⟨e, n⟩ | ⟨e, n⟩ | ⟨i, turn, r, a⟩ | _
    · have hv : updateLegacy wf rs env =
          some ⟨some (.wrapped "update: could not read data" e), false, "", none⟩ := by
        rw [updateLegacy, hexit]
      rw [hv] at hout
      simp only [Option.some.injEq] at hout
      rw [← hout] at hdiag
      simp at hdiag
    · have hv : updateLegacy wf rs env =
          some ⟨some (.wrapped "update: could not copy to output file" e), true, "", none⟩ := by
        rw [updateLegacy, hexit]
      rw [hv] at hout
      simp only [Option.some.injEq] at hout
      rw [← hout] at hdiag
      simp at hdiag
    · have hturn : 0 < turn := streamLoopLegacy_eofDone_turn wf rs 0 0 0 _ _ _ _ _ hexit
      rcases hce : env.closeErr with _ | ce
      · rcases hme : env.setModTimeErr with _ | me
        · have hv : updateLegacy wf rs env =
              some ⟨none, false, natToHex (adlerSum32 a), some turn⟩ := by
            rw [updateLegacy, hexit, hce, hme]
          rw [hv] at hout
          simp only [Option.some.injEq] at hout
          rw [← hout] at hdiag
          simp only [Option.some.injEq] at hdiag
          omega
        · have hv : updateLegacy wf rs env =
              some ⟨some (.wrapped "Update: SetModTime failed" me), false,
                natToHex (adlerSum32 a), some turn⟩ := by
            rw [updateLegacy, hexit, hce, hme]
          rw [hv] at hout
          simp only [Option.some.injEq] at hout
          rw [← hout] at hdiag
          simp only [Option.some.injEq] at hdiag
          omega
      · have hv : updateLegacy wf rs env =
            some ⟨some (.wrapped "could not close output file" ce), true,
              natToHex (adlerSum32 a), some turn⟩ := by
          rw [updateLegacy, hexit, hce]
        rw [hv] at hout
        simp only [Option.some.injEq] at hout
        rw [← hout] at hdiag
        simp only [Option.some.injEq] at hdiag
        omega
    · have hv : updateLegacy wf rs env = none := by
        rw [updateLegacy, hexit]
      rw [hv] at hout
      simp at hout

/-- Witness for `update_zero_length_division_guard`: the zero-length upload
reaches the diagnostic with divisor 1. -/
theorem update_zero_length_division_guard_witness :
    updatePooled wfOk [⟨[], some XErr.eof⟩] envOk =
      some ⟨none, false, "", some 1⟩ ∧ (1 : Nat) ≤ 1 :=
  ⟨rfl, update_zero_length_division_guard.2.2.1 wfOk [⟨[], some XErr.eof⟩] envOk
    ⟨none, false, "", some 1⟩ 1 rfl rfl⟩

/-- C2 (amended).  An upload aborted by a non-EOF read error: the pooled
`Update` invokes the best-effort `remove()` cleanup and returns the bare
original read error (never the cleanup outcome, which is only logged); the
legacy `Update` returns the original read error wrapped with
"update: could not read data" but does not invoke any cleanup delete (its
`remove()` runs only for write and close errors). -/
theorem update_read_abort_cleanup (wf : Nat → Option XErr) (rs : List ReadStep)
    (env : UpdEnv) (e : XErr) (n : Nat)
    (h : streamLoopPooled wf rs 0 0 0 = .readFail e n) :
    updatePooled wf rs env = some ⟨some e, true, "", none⟩ ∧
    updateLegacy wf rs env =
      some ⟨some (.wrapped "update: could not read data" e), false, "", none⟩ := by
  have hleg := loops_agree_readFail wf rs 0 0 0 adler32Init e n h
  constructor
  · rw [updatePooled, h]
  · rw [updateLegacy, hleg]

/-- Witness for `update_read_abort_cleanup`: a read failure after one
delivered byte. -/
theorem update_read_abort_cleanup_witness :
    updatePooled wfOk [⟨[1], none⟩, ⟨[], some (XErr.remote 3)⟩] envOk =
      some ⟨some (XErr.remote 3), true, "", none⟩ ∧
    updateLegacy wfOk [⟨[1], none⟩, ⟨[], some (XErr.remote 3)⟩] envOk =
      some ⟨some (.wrapped "update: could not read data" (XErr.remote 3)), false, "", none⟩ :=
  update_read_abort_cleanup wfOk [⟨[1], none⟩, ⟨[], some (XErr.remote 3)⟩] envOk
    (XErr.remote 3) 2 rfl

/-- C2 counterexample: in the legacy variant an upload aborted by a read
error after 1 of 2 bytes returns the wrapped read error but never invokes
the cleanup delete, so the claim that both variants delete the partial
object on a read abort is false. -/
theorem update_read_abort_no_cleanup_legacy :
    streamLoopLegacy wfOk [⟨[1], none⟩, ⟨[], some (XErr.remote 3)⟩] 0 0 0 adler32Init =
      .readFail (XErr.remote 3) 2 ∧
    (updateLegacy wfOk [⟨[1], none⟩, ⟨[], some (XErr.remote 3)⟩] envOk).map
      UpdOut.removeInvoked = some false :=
  ⟨rfl, rfl⟩

/-! ## Content hash retrieval -/

/-- Single-character `strings.Split`: cut the character list at every
occurrence of `sep`; always yields at least one (possibly empty) group. -/
def splitOnChar (sep : Char) : List Char → List (List Char)
  | [] => [[]]
  | c :: cs =>
    if c = sep then [] :: splitOnChar sep cs
    else
      match splitOnChar sep cs with
      | [] => [[c]]
      | g :: gs => (c :: g) :: gs

/-- The NUL terminator of the checksum response. -/
def nulChar : Char := Char.ofNat 0

/-- The algorithm tag `"adler32"`. -/
def adlerTag : List Char := ['a', 'd', 'l', 'e', 'r', '3', '2']

/-- The configuration value `"none"` of `hash_chosen`. -/
def noneTag : List Char := ['n', 'o', 'n', 'e']

/-- Environment for one `Hash` call: outcomes of path parsing, client
acquisition, the legacy variant's file open, the checksum query, and the
raw `resp.Data` bytes (as characters). -/
structure HashEnv where
  parseErr : Option XErr
  connErr : Option XErr
  openErr : Option XErr
  sendErr : Option XErr
  respData : List Char
deriving DecidableEq, Repr

/-- Result of a `Hash` call: `result = none` models a Go runtime panic;
otherwise the returned digest and error.  `didResolve` records whether the
path was resolved, `didQuery` whether the remote checksum query was
issued. -/
structure HashRes where
  result : Option (List Char × Option XErr)
  didResolve : Bool
  didQuery : Bool
deriving DecidableEq, Repr

/-- The response-parsing tail of the pooled `Object.Hash`: split
`resp.Data` on `" "`; when the first field (`stringdata[0]`) is
`"adler32"` and the type matches, read `stringdata[1]` (`none` here models
the out-of-range panic when the response contains no space), split it at
NUL and publish it as `o.hash` when it has 8 characters; the function
yields the resulting `o.hash`. -/
def parseChecksumResp (tIsAdler : Bool) (cached : List Char) (data : List Char) :
    Option (List Char) :=
  if (splitOnChar ' ' data).headD [] = adlerTag ∧ tIsAdler = true then
    match (splitOnChar ' ' data)[1]? with
    | none => none
    | some s1 =>
      if ((splitOnChar nulChar s1).headD []).length = 8 then
        some ((splitOnChar nulChar s1).headD [])
      else some cached
  else some cached

/-- The pooled `Object.Hash`: returns `""` with no error immediately when
`hash_chosen = "none"`; rejects other hash types with `ErrUnsupported`;
then resolves the path, acquires a connection, issues the checksum query
and parses the textual response (`parseChecksumResp`), returning the
cached `o.hash` errorless. -/
def hashPooled (hashChosen : List Char) (tIsAdler : Bool) (cached : List Char)
    (env : HashEnv) : HashRes :=
  if hashChosen = noneTag then ⟨some ([], none), false, false⟩
  else if tIsAdler = false then ⟨some ([], some .unsupportedHash), false, false⟩
  else
    match env.parseErr with
    | some e => ⟨some ([], some e), true, false⟩
    | none =>
      match env.connErr with
      | some e => ⟨some ([], some (.wrapped "Hash" e)), true, false⟩
      | none =>
        match env.sendErr with
        | some e => ⟨some ([], some e), true, true⟩
        | none =>
          match parseChecksumResp tIsAdler cached env.respData with
          | none => ⟨none, true, true⟩
          | some d => ⟨some (d, none), true, true⟩

/-- The legacy `Object.Hash`: rejects other hash types, resolves and dials
via `xrdremote`, opens the remote file, issues the checksum query, and
slices the fixed byte range `resp.Data[8:16]` as the digest — a response
shorter than 16 bytes makes the Go slice expression panic. -/
def hashLegacy (tIsAdler : Bool) (_cached : List Char) (env : HashEnv) : HashRes :=
  if tIsAdler = false then ⟨some ([], some .unsupportedHash), false, false⟩
  else
    match env.parseErr with
    | some e => ⟨some ([], some e), true, false⟩
    | none =>
      match env.connErr with
      | some e => ⟨some ([], some e), true, false⟩
      | none =>
        match env.openErr with
        | some e => ⟨some ([], some e), true, false⟩
        | none =>
          match env.sendErr with
          | some e => ⟨some ([], some e), true, true⟩
          | none =>
            if env.respData.length < 16 then ⟨none, true, true⟩
            else ⟨some ((env.respData.drop 8).take 8, none), true, true⟩

/-- A checksum-query environment where everything succeeds and the remote
answers `data`. -/
def goodHashEnv (data : List Char) : HashEnv := ⟨none, none, none, none, data⟩

/-- The well-formed checksum response `"adler32 " ++ digest ++ "\x00"`. -/
def wfResp (digest : List Char) : List Char :=
  adlerTag ++ ' ' :: (digest ++ [nulChar])

/-- Hexadecimal digit characters `0-9a-f` (by code point). -/
def isHexDigitChar (c : Char) : Prop :=
  (48 ≤ c.toNat ∧ c.toNat ≤ 57) ∨ (97 ≤ c.toNat ∧ c.toNat ≤ 102)

instance (c : Char) : Decidable (isHexDigitChar c) := by
  unfold isHexDigitChar
  infer_instance

theorem hex_ne_space {c : Char} (h : isHexDigitChar c) : c ≠ ' ' := fun hc =>
  absurd (hc ▸ h) (by decide)

theorem hex_ne_nul {c : Char} (h : isHexDigitChar c) : c ≠ nulChar := fun hc =>
  absurd (hc ▸ h) (by decide)

theorem splitOnChar_no_sep (sep : Char) (l : List Char) (h : sep ∉ l) :
    splitOnChar sep l = [l] := by
  induction l with
  | nil => rfl
  | cons c cs ih =>
    have hcs : sep ∉ cs := fun hm => h (List.mem_cons_of_mem c hm)
    have hc : c ≠ sep := fun hhc => h (hhc ▸ List.mem_cons_self c cs)
    rw [splitOnChar, if_neg hc, ih hcs]

theorem splitOnChar_append_sep (sep : Char) (l1 l2 : List Char) (h : sep ∉ l1) :
    splitOnChar sep (l1 ++ sep :: l2) = l1 :: splitOnChar sep l2 := by
  induction l1 with
  | nil =>
    simp only [List.nil_append]
    rw [splitOnChar, if_pos rfl]
  | cons c cs ih =>
    have hcs : sep ∉ cs := fun hm => h (List.mem_cons_of_mem c hm)
    have hc : c ≠ sep := fun hhc => h (hhc ▸ List.mem_cons_self c cs)
    simp only [List.cons_append]
    rw [splitOnChar, if_neg hc, ih hcs]

/-- C7.  On every well-formed checksum response — the string `"adler32 "`
followed by an 8-character hex digest and a terminating NUL — the pooled
variant's textual parse (split on space and NUL, check digest length 8)
and the legacy variant's fixed-offset slice (bytes 8..16) return the same
digest, errorless. -/
theorem hash_variants_agree (digest : List Char) (h8 : digest.length = 8)
    (hhex : ∀ c ∈ digest, isHexDigitChar c) :
    hashPooled adlerTag true [] (goodHashEnv (wfResp digest)) =
      hashLegacy true [] (goodHashEnv (wfResp digest)) ∧
    (hashPooled adlerTag true [] (goodHashEnv (wfResp digest))).result =
      some (digest, none) := by
  have hsp : ' ' ∉ digest ++ [nulChar] := by
    intro hm
    rcases List.mem_append.mp hm with hm | hm
    · exact hex_ne_space (hhex _ hm) rfl
    · simp only [List.mem_singleton] at hm
      exact absurd hm.symm (by decide)
  have hnul : nulChar ∉ digest := fun hm => hex_ne_nul (hhex _ hm) rfl
  have hsd : splitOnChar ' ' (wfResp digest) = [adlerTag, digest ++ [nulChar]] := by
    rw [wfResp, splitOnChar_append_sep ' ' adlerTag (digest ++ [nulChar]) (by decide),
      splitOnChar_no_sep ' ' (digest ++ [nulChar]) hsp]
  have hsplit3 : splitOnChar nulChar (digest ++ [nulChar]) = [digest, []] := by
    rw [splitOnChar_append_sep nulChar digest [] hnul]
    rfl
  have hparse : parseChecksumResp true [] (wfResp digest) = some digest := by
    rw [parseChecksumResp, hsd]
    rw [if_pos ⟨rfl, rfl⟩]
    show (if ((splitOnChar nulChar (digest ++ [nulChar])).headD []).length = 8
      then some ((splitOnChar nulChar (digest ++ [nulChar])).headD []) else some []) =
      some digest
    rw [hsplit3]
    simp only [List.headD_cons]
    rw [if_pos h8]
  have hpooled : hashPooled adlerTag true [] (goodHashEnv (wfResp digest)) =
      ⟨some (digest, none), true, true⟩ := by
    rw [hashPooled]
    rw [if_neg (by decide), if_neg (by decide)]
    show (match parseChecksumResp true [] (wfResp digest) with
      | none => (⟨none, true, true⟩ : HashRes)
      | some d => ⟨some (d, none), true, true⟩) = _
    rw [hparse]
  have hlen : (wfResp digest).length = 17 := by
    simp [wfResp, adlerTag, h8]
  have hdrop : (wfResp digest).drop 8 = digest ++ [nulChar] := rfl
  have hlegacy : hashLegacy true [] (goodHashEnv (wfResp digest)) =
      ⟨some (digest, none), true, true⟩ := by
    rw [hashLegacy]
    rw [if_neg (by decide)]
    show (if (wfResp digest).length < 16 then (⟨none, true, true⟩ : HashRes)
      else ⟨some (((wfResp digest).drop 8).take 8, none), true, true⟩) = _
    rw [if_neg (by omega)]
    rw [hdrop]
    have htake : (digest ++ [nulChar]).take 8 = digest := by
      rw [← h8]
      exact List.take_left digest [nulChar]
    rw [htake]
  rw [hpooled, hlegacy]
  exact ⟨rfl, rfl⟩

/-- Witness for `hash_variants_agree` at the digest `"95ec3712"`. -/
theorem hash_variants_agree_witness :
    hashPooled adlerTag true []
        (goodHashEnv (wfResp ['9', '5', 'e', 'c', '3', '7', '1', '2'])) =
      hashLegacy true []
        (goodHashEnv (wfResp ['9', '5', 'e', 'c', '3', '7', '1', '2'])) ∧
    (hashPooled adlerTag true []
        (goodHashEnv (wfResp ['9', '5', 'e', 'c', '3', '7', '1', '2']))).result =
      some (['9', '5', 'e', 'c', '3', '7', '1', '2'], none) :=
  hash_variants_agree ['9', '5', 'e', 'c', '3', '7', '1', '2'] rfl (by decide)

/-- C8.  The disabled-configuration path is as claimed: with
`hash_chosen = "none"` the pooled Hash returns `""` with no error before
any path resolution or remote call.  But the malformed-response claim
fails in the code: a response consisting of the bare algorithm tag
`"adler32"` (no space, no digest) passes the first-field comparison and
the code indexes `stringdata[1]` out of range — a runtime panic
(`result = none`), not an errorless empty string. -/
theorem hash_disabled_and_malformed_panic :
    hashPooled noneTag true ['a', 'b'] (goodHashEnv (wfResp ['0'])) =
      ⟨some ([], none), false, false⟩ ∧
    (hashPooled adlerTag true [] (goodHashEnv adlerTag)).result = none ∧
    (hashPooled adlerTag true [] (goodHashEnv adlerTag)).didQuery = true := by
  refine ⟨rfl, ?_, ?_⟩ <;>
    · rw [hashPooled]
      rw [if_neg (by decide), if_neg (by decide)]
      rfl

/-- C3 (amended).  Only the legacy `Update` accumulates the adler32
checksum during the stream loop: on an upload that completes without read
or write errors (EOF exit) and with successful close and SetModTime, the
legacy variant publishes `fmt.Sprintf("%x", Sum32)` of the adler32 over
exactly the delivered bytes as `o.hash`, while the pooled variant leaves
the cleared `o.hash` empty; and in both variants a subsequent `Hash()`
call still issues the remote checksum query (an extra round trip)
regardless of the cached value. -/
theorem update_checksum_publication (wf : Nat → Option XErr) (rs : List ReadStep)
    (i t r : Nat) (acc : Nat × Nat)
    (h : streamLoopLegacy wf rs 0 0 0 adler32Init = .eofDone i t r acc) :
    updateLegacy wf rs envOk = some ⟨none, false,
      natToHex (adlerSum32 (adler32Upd adler32Init (deliveredBytes rs))), some t⟩ ∧
    updatePooled wf rs envOk = some ⟨none, false, "", some t⟩ ∧
    (∀ (cached : List Char) (env2 : HashEnv), env2.parseErr = none → env2.connErr = none →
      (hashPooled adlerTag true cached env2).didQuery = true) ∧
    (∀ (cached : List Char) (env2 : HashEnv), env2.parseErr = none → env2.connErr = none →
      env2.openErr = none → (hashLegacy true cached env2).didQuery = true) := by
  have hacc := streamLoopLegacy_eofDone_acc wf rs 0 0 0 adler32Init i t r acc h
  have hpool := loops_agree_eofDone wf rs 0 0 0 adler32Init i t r acc h
  refine ⟨?_, ?_, ?_, ?_⟩
  · rw [updateLegacy, h, ← hacc]
    rfl
  · rw [updatePooled, hpool]
    rfl
  · intro cached env2 hp hcn
    rcases env2 with ⟨pe, ce, oe, se, data⟩
    simp only at hp hcn
    subst hp
    subst hcn
    rw [hashPooled, if_neg (by decide), if_neg (by decide)]
    cases se with
    | some e => rfl
    | none =>
      cases hpc : parseChecksumResp true cached data with
      | none => simp [hpc]
      | some d => simp [hpc]
  · intro cached env2 hp hcn hop
    rcases env2 with ⟨pe, ce, oe, se, data⟩
    simp only at hp hcn hop
    subst hp
    subst hcn
    subst hop
    rw [hashLegacy, if_neg (by decide)]
    cases se with
    | some e => rfl
    | none =>
      by_cases hlt : data.length < 16
      · simp [hlt]
      · simp [hlt]

/-- Witness for `update_checksum_publication`: uploading the single byte 1
publishes the adler32 digest `"20002"` in the legacy variant and nothing
in the pooled variant. -/
theorem update_checksum_publication_witness :
    updateLegacy wfOk [⟨[1], some XErr.eof⟩] envOk = some ⟨none, false,
      natToHex (adlerSum32 (adler32Upd adler32Init
        (deliveredBytes [⟨[1], some XErr.eof⟩]))), some 1⟩ ∧
    updatePooled wfOk [⟨[1], some XErr.eof⟩] envOk = some ⟨none, false, "", some 1⟩ ∧
    (∀ (cached : List Char) (env2 : HashEnv), env2.parseErr = none → env2.connErr = none →
      (hashPooled adlerTag true cached env2).didQuery = true) ∧
    (∀ (cached : List Char) (env2 : HashEnv), env2.parseErr = none → env2.connErr = none →
      env2.openErr = none → (hashLegacy true cached env2).didQuery = true) :=
  update_checksum_publication wfOk [⟨[1], some XErr.eof⟩] 1 1 1 (2, 2) rfl

/-- C3 counterexample: after the successful checksum-enabled upload of the
byte 1, the pooled variant's cached hash is empty, not the adler32 digest
`"20002"` that the accumulator over the uploaded bytes yields (and that
the legacy variant publishes), so the claim is false for the pooled
`Update`. -/
theorem update_checksum_pooled_counterexample :
    (updatePooled wfOk [⟨[1], some XErr.eof⟩] envOk).map UpdOut.publishedHash =
      some "" ∧
    (updateLegacy wfOk [⟨[1], some XErr.eof⟩] envOk).map UpdOut.publishedHash =
      some "20002" ∧
    ("" : String) ≠ "20002" :=
  ⟨rfl, rfl, by decide⟩

/-! ## Download-side close check -/

/-- `xrdOpenFile` read-side state: bytes delivered so far and the EOF
marker. -/
structure XrdOpenFile where
  bytes : Nat
  eof : Bool
deriving DecidableEq, Repr

/-- `xrdOpenFile.Read`: `file.bytes += int64(n)`; `eof` is set when the
underlying read reports `io.EOF`. -/
def xrdRead (st : XrdOpenFile) (n : Nat) (isEof : Bool) : XrdOpenFile :=
  ⟨st.bytes + n, st.eof || isEof⟩

/-- The stream state after a sequence of reads, each delivering `n` bytes
with an EOF flag. -/
def runReads (l : List (Nat × Bool)) : XrdOpenFile :=
  l.foldl (fun st p => xrdRead st p.1 p.2) ⟨0, false⟩

/-- The pooled `xrdOpenFile.Close`: close the remote file and propagate
its error; the comparison of `file.o.Size()` against the delivered byte
count is only logged (`fs.Debugf`), never returned. -/
def closePooled (size bytes : Nat) (closeErr : Option XErr) : Option XErr :=
  match closeErr with
  | some e => some e
  | none =>
    if size ≠ bytes then none
    else none

/-- The legacy `xrdOpenFile.Close`: after closing, a mismatch between
`file.o.Size()` and the delivered byte count returns the corruption error
(`object corrupted on transfer - length mismatch`); otherwise the close
error is returned. -/
def closeLegacy (size bytes : Nat) (closeErr : Option XErr) : Option XErr :=
  if size ≠ bytes then some .lengthMismatch else closeErr

/-- C4 (amended).  For every read stream, the legacy variant's Close
compares the delivered byte count with the stated size and returns the
length-mismatch error exactly when they differ (otherwise it propagates
the remote close outcome); the pooled variant's Close only logs the
mismatch and returns just the remote close outcome. -/
theorem close_length_check (size : Nat) (l : List (Nat × Bool)) (ce : Option XErr) :
    (size ≠ (runReads l).bytes →
      closeLegacy size (runReads l).bytes ce = some .lengthMismatch) ∧
    (size = (runReads l).bytes → closeLegacy size (runReads l).bytes ce = ce) ∧
    closePooled size (runReads l).bytes ce = ce := by
  refine ⟨fun h => ?_, fun h => ?_, ?_⟩
  · rw [closeLegacy, if_pos h]
  · rw [closeLegacy, if_neg (by simp [h])]
  · cases ce with
    | some e => rfl
    | none =>
      rw [closePooled]
      by_cases h : size ≠ (runReads l).bytes
      · rw [if_pos h]
      · rw [if_neg h]

/-- Witness for `close_length_check`: a stream that delivered 3 of 5
announced bytes. -/
theorem close_length_check_witness :
    closeLegacy 5 (runReads [(3, true)]).bytes none = some .lengthMismatch ∧
    closePooled 5 (runReads [(3, true)]).bytes none = none :=
  ⟨(close_length_check 5 [(3, true)] none).1 (by decide),
    (close_length_check 5 [(3, true)] none).2.2⟩

/-- C4 counterexample: the pooled variant's Close returns no error even
though only 3 of the announced 5 bytes were delivered, so the claim that
both variants surface the mismatch as an error is false. -/
theorem close_length_check_pooled_counterexample :
    (runReads [(3, true)]).bytes = 3 ∧ (5 : Nat) ≠ 3 ∧
    closePooled 5 (runReads [(3, true)]).bytes none = none :=
  ⟨rfl, by decide, rfl⟩

/-! ## Call-site release semantics (Go defer) -/

/-- Environment for one pooled `Fs.List` call: outcomes of path parsing,
the dial used when the pool is empty, the remote `Stat` and `Dirlist`, and
the listing (directory flag per entry). -/
structure ListEnv where
  parseErr : Option XErr
  dialErr : Option XErr
  statErr : Option XErr
  dirlistErr : Option XErr
  entryIsDir : List Bool
deriving DecidableEq, Repr

/-- Result of a `List` call. -/
inductive ListRes where
  | ok (entries : List Bool)
  | fail (e : XErr)
deriving DecidableEq, Repr

/-- A `List` call's outcome together with the resulting pool state and the
error argument `ConnectionFree` received (`none` when it was never
called). -/
structure ListOut where
  res : ListRes
  st : PoolSt
  freeArg : Option (Option XErr)
deriving DecidableEq, Repr

/-- The pooled `Fs.List`: parse the directory url; acquire a connection
(no release happens when this fails, the defer is not yet registered);
`defer f.ConnectionFree(c, errClient)` — Go evaluates the arguments now,
when `errClient` is nil (`deferArg`); then `Stat` (failure returns
`ErrorDirNotFound`) and `Dirlist`.  On every exit path after the defer,
`ConnectionFree` receives the captured nil, not the value `errClient` was
later reassigned to. -/
def listPooled (s : PoolSt) (env : ListEnv) : ListOut :=
  match env.parseErr with
  | some e => ⟨.fail (.wrapped "could not stat" e), s, none⟩
  | none =>
    match acquireStep s env.dialErr.isNone with
    | (none, s1) =>
        ⟨.fail (.wrapped "List" (env.dialErr.getD .parseFail)), s1, none⟩
    | (some c, s1) =>
      let deferArg : Option XErr := none
      match env.statErr with
      | some _ => ⟨.fail .dirNotFound, connectionFree s1 c deferArg, some deferArg⟩
      | none =>
        match env.dirlistErr with
        | some e =>
            ⟨.fail (.wrapped "could not list dir" e),
              connectionFree s1 c deferArg, some deferArg⟩
        | none => ⟨.ok env.entryIsDir, connectionFree s1 c deferArg, some deferArg⟩

/-- C5 is wrong in the code: Go evaluates the arguments of
`defer f.ConnectionFree(c, errClient)` at registration time, right after
the successful acquire, when `errClient` is still nil (and `Fs.stat` even
passes a literal nil).  So `ConnectionFree` never receives a failed remote
call's error; concretely, a `List` whose remote `Stat` fails returns
`ErrorDirNotFound` while its session rejoins the idle pool instead of
being recorded as errored and closed. -/
theorem list_release_defer_captures_nil (e : XErr) :
    (∀ (s : PoolSt) (env : ListEnv),
      (listPooled s env).freeArg = none ∨ (listPooled s env).freeArg = some none) ∧
    listPooled initSt ⟨none, none, some e, none, []⟩ =
      ⟨.fail .dirNotFound, ⟨[⟨0, none⟩], [], 1, []⟩, some none⟩ := by
  constructor
  · intro s env
    rw [listPooled]
    cases hpe : env.parseErr with
    | some e0 => simp
    | none =>
      rcases hacq : acquireStep s env.dialErr.isNone with ⟨oc, s1⟩
      cases oc with
      | none => simp [hacq]
      | some c =>
        cases hse : env.statErr with
        | some e0 => simp [hacq, hse]
        | none =>
          cases hde : env.dirlistErr with
          | some e0 => simp [hacq, hse, hde]
          | none => simp [hacq, hse, hde]
  · rfl

/-! ## Rmdir -/

/-- Environment for one `Rmdir` call: `dialErr` is the connection/path
failure of the List stage (and of the second, removal-stage acquisition),
then the remote `Stat` and `Dirlist` outcomes, the listing itself, and the
`RemoveDir` outcome. -/
structure RmdirEnv where
  dialErr : Option XErr
  statErr : Option XErr
  dirlistErr : Option XErr
  entries : List Bool
  removeDirErr : Option XErr
deriving DecidableEq, Repr

/-- Remote calls an `Rmdir` run can issue. -/
inductive RmCall where
  | statC
  | dirlistC
  | removeDirC
deriving DecidableEq, Repr

/-- The pooled `Fs.Rmdir`: first `List(dir)` (Stat, then Dirlist); a List
error is wrapped `"Rmdir"` and returned; a non-empty listing returns
`ErrorDirectoryNotEmpty` before any removal; only an empty listing
proceeds to re-parse the url, acquire a connection (the code checks the
stale `err` variable here instead of `errClient`, so an acquisition
failure is not caught and the nil client panics — modeled as `none`), and
issue `RemoveDir`. -/
def rmdirPooled (env : RmdirEnv) : Option (Option XErr × List RmCall) :=
  match env.dialErr with
  | some e => some (some (.wrapped "Rmdir" (.wrapped "List" e)), [])
  | none =>
    match env.statErr with
    | some _ => some (some (.wrapped "Rmdir" .dirNotFound), [.statC])
    | none =>
      match env.dirlistErr with
      | some e =>
          some (some (.wrapped "Rmdir" (.wrapped "could not list dir" e)),
            [.statC, .dirlistC])
      | none =>
        if env.entries.length ≠ 0 then
          some (some .directoryNotEmpty, [.statC, .dirlistC])
        else
          match env.dialErr with
          | some _ => none
          | none =>
            match env.removeDirErr with
            | some e => some (some e, [.statC, .dirlistC, .removeDirC])
            | none => some (none, [.statC, .dirlistC, .removeDirC])

/-- The legacy `Fs.Rmdir`: same structure with per-call dialing; the
removal-stage dial failure is checked properly and returned. -/
def rmdirLegacy (env : RmdirEnv) : Option (Option XErr × List RmCall) :=
  match env.dialErr with
  | some e => some (some (.wrapped "Rmdir" (.wrapped "could not stat" e)), [])
  | none =>
    match env.statErr with
    | some _ => some (some (.wrapped "Rmdir" .dirNotFound), [.statC])
    | none =>
      match env.dirlistErr with
      | some e =>
          some (some (.wrapped "Rmdir" (.wrapped "could not list dir" e)),
            [.statC, .dirlistC])
      | none =>
        if env.entries.length ≠ 0 then
          some (some .directoryNotEmpty, [.statC, .dirlistC])
        else
          match env.dialErr with
          | some e => some (some e, [.statC, .dirlistC])
          | none =>
            match env.removeDirErr with
            | some e => some (some e, [.statC, .dirlistC, .removeDirC])
            | none => some (none, [.statC, .dirlistC, .removeDirC])

/-- C9.  When the directory's listing is non-empty, both Rmdir variants
return `ErrorDirectoryNotEmpty` after the List-stage Stat and Dirlist and
issue no remote delete: the List-based emptiness check precedes any
removal. -/
theorem rmdir_nonempty_no_delete (env : RmdirEnv)
    (hd : env.dialErr = none) (hs : env.statErr = none)
    (hl : env.dirlistErr = none) (hne : env.entries ≠ []) :
    rmdirPooled env = some (some .directoryNotEmpty, [.statC, .dirlistC]) ∧
    rmdirLegacy env = some (some .directoryNotEmpty, [.statC, .dirlistC]) ∧
    RmCall.removeDirC ∉ [RmCall.statC, RmCall.dirlistC] := by
  rcases env with ⟨de, se, dle, ents, rde⟩
  simp only at hd hs hl hne
  subst hd
  subst hs
  subst hl
  have hlen : ents.length ≠ 0 := by
    intro h0
    exact hne (List.length_eq_zero.mp h0)
  refine ⟨?_, ?_, by decide⟩
  · simp [rmdirPooled, hlen]
  · simp [rmdirLegacy, hlen]

/-- Witness for `rmdir_nonempty_no_delete`: a directory with one file
entry. -/
theorem rmdir_nonempty_no_delete_witness :
    rmdirPooled ⟨none, none, none, [false], none⟩ =
      some (some .directoryNotEmpty, [.statC, .dirlistC]) ∧
    rmdirLegacy ⟨none, none, none, [false], none⟩ =
      some (some .directoryNotEmpty, [.statC, .dirlistC]) ∧
    RmCall.removeDirC ∉ [RmCall.statC, RmCall.dirlistC] :=
  rmdir_nonempty_no_delete ⟨none, none, none, [false], none⟩ rfl rfl rfl (by decide)

/-! ## Move -/

/-- The `root://` url scheme the adapter builds its urls with. -/
def rootScheme : List Char := ['r', 'o', 'o', 't', ':', '/', '/']

/-- `xrdio.Parse` on the urls this backend builds: a `root://` url yields
its path — everything from the first slash after the authority; anything
else fails to parse. -/
def xrdparse (s : List Char) : Option (List Char) :=
  if rootScheme.isPrefixOf s then
    some ((s.drop 7).dropWhile (fun c => c ≠ '/'))
  else none

/-- Go `filepath.Base`: `"."` for the empty path, otherwise the last
slash-separated component after trailing slashes are removed (`"/"` when
nothing remains). -/
def goBase (s : List Char) : List Char :=
  if s = [] then ['.']
  else
    let s1 := (s.reverse.dropWhile (fun c => c = '/')).reverse
    if s1 = [] then ['/']
    else (splitOnChar '/' s1).getLastD []

/-- `Object.path`: `o.fs.url + "/" + o.remote`, or just the url when its
base already equals the remote. -/
def objPath (url remote : List Char) : List Char :=
  if goBase url = remote then url else url ++ '/' :: remote

/-- Remote calls a `Move` run can issue. -/
inductive MCall where
  | dialC
  | renameC (src dst : List Char)
  | statC (p : List Char)
deriving DecidableEq, Repr

/-- The source argument of `Move`: an `*Object` of this backend (carrying
its own adapter's url, possibly a different endpoint) or a foreign object
type. -/
inductive MoveSrc where
  | xrootdObj (srcUrl : List Char) (srcRemote : List Char)
  | otherType
deriving DecidableEq, Repr

/-- Outcomes of the remote calls a `Move` makes. -/
structure MoveEnv where
  connErr : Option XErr
  renameErr : Option XErr
  statErr : Option XErr
deriving DecidableEq, Repr

/-- The pooled `Fs.Move`: only the Go type of `src` is checked
(`src.(*Object)`) — an xrootd object belonging to an adapter with a
different endpoint url passes.  Then both paths are resolved, a pooled
connection acquired and the remote `Rename` issued, and the destination
re-stat'ed (`NewObject`).  On connection failure the code wraps the stale
nil `err` variable, so it returns a nil error — modeled faithfully. -/
def movePooled (furl : List Char) (src : MoveSrc) (remote : List Char)
    (env : MoveEnv) : Option XErr × List MCall :=
  match src with
  | .otherType => (some .cantMove, [])
  | .xrootdObj srcUrl srcRemote =>
    match xrdparse (objPath srcUrl srcRemote) with
    | none => (some (.wrapped "Move: source path failure" .parseFail), [])
    | some pathsrc =>
      match xrdparse (furl ++ '/' :: remote) with
      | none => (some (.wrapped "Move: destination path failed" .parseFail), [])
      | some pathdst =>
        match env.connErr with
        | some _ => (none, [])
        | none =>
          match env.renameErr with
          | some e => (some (.wrapped "Move Rename failed" e),
              [.renameC pathsrc pathdst])
          | none =>
            match env.statErr with
            | some e => (some (.wrapped "Move NewObject failed" e),
                [.renameC pathsrc pathdst, .statC pathdst])
            | none => (none, [.renameC pathsrc pathdst, .statC pathdst])

/-- The legacy `Fs.Move`: the same type-only check; each `xrdremote` call
dials a fresh client (a remote dial), one per path resolution and one
inside the destination re-stat. -/
def moveLegacy (furl : List Char) (src : MoveSrc) (remote : List Char)
    (env : MoveEnv) : Option XErr × List MCall :=
  match src with
  | .otherType => (some .cantMove, [])
  | .xrootdObj srcUrl srcRemote =>
    match xrdparse (objPath srcUrl srcRemote) with
    | none => (some (.wrapped "Move" .parseFail), [])
    | some pathsrc =>
      match env.connErr with
      | some e => (some (.wrapped "Move" e), [.dialC])
      | none =>
        match xrdparse (furl ++ '/' :: remote) with
        | none => (some (.wrapped "Move" .parseFail), [.dialC])
        | some pathdst =>
          match env.connErr with
          | some e => (some (.wrapped "Move" e), [.dialC, .dialC])
          | none =>
            match env.renameErr with
            | some e => (some (.wrapped "Move Rename failed" e),
                [.dialC, .dialC, .renameC pathsrc pathdst])
            | none =>
              match env.statErr with
              | some e => (some (.wrapped "Move NewObject failed" e),
                  [.dialC, .dialC, .renameC pathsrc pathdst, .dialC, .statC pathdst])
              | none => (none,
                  [.dialC, .dialC, .renameC pathsrc pathdst, .dialC, .statC pathdst])

theorem isPrefixOf_append (p u v : List Char) (h : p.isPrefixOf u = true) :
    p.isPrefixOf (u ++ v) = true := by
  rw [List.isPrefixOf_iff_prefix] at *
  exact h.trans (List.prefix_append u v)

theorem objPath_keeps_scheme (u r : List Char) (h : rootScheme.isPrefixOf u = true) :
    rootScheme.isPrefixOf (objPath u r) = true := by
  rw [objPath]
  by_cases hb : goBase u = r
  · rw [if_pos hb]
    exact h
  · rw [if_neg hb]
    exact isPrefixOf_append _ _ _ h

theorem xrdparse_some_of_scheme (u : List Char) (h : rootScheme.isPrefixOf u = true) :
    xrdparse u = some ((u.drop 7).dropWhile (fun c => c ≠ '/')) := by
  rw [xrdparse, if_pos h]

/-- C6 (amended).  `Move` returns `CantMove` without issuing any remote
call exactly when `src` is not this backend's object type; an xrootd
source object whose adapter points at a different endpoint passes the
type-only check and the remote rename is attempted, in both variants. -/
theorem move_type_check_only (furl remote srcUrl srcRemote : List Char)
    (env : MoveEnv)
    (hf : rootScheme.isPrefixOf furl = true)
    (hs : rootScheme.isPrefixOf srcUrl = true)
    (henv : env = ⟨none, none, none⟩) :
    movePooled furl MoveSrc.otherType remote env = (some .cantMove, []) ∧
    moveLegacy furl MoveSrc.otherType remote env = (some .cantMove, []) ∧
    (∃ ps pd, MCall.renameC ps pd ∈
      (movePooled furl (.xrootdObj srcUrl srcRemote) remote env).2) ∧
    (∃ ps pd, MCall.renameC ps pd ∈
      (moveLegacy furl (.xrootdObj srcUrl srcRemote) remote env).2) := by
  subst henv
  have hps := xrdparse_some_of_scheme _ (objPath_keeps_scheme srcUrl srcRemote hs)
  have hpd := xrdparse_some_of_scheme _ (isPrefixOf_append _ _ ('/' :: remote) hf)
  refine ⟨rfl, rfl,
    ⟨((objPath srcUrl srcRemote).drop 7).dropWhile (fun c => c ≠ '/'),
      ((furl ++ '/' :: remote).drop 7).dropWhile (fun c => c ≠ '/'), ?_⟩,
    ⟨((objPath srcUrl srcRemote).drop 7).dropWhile (fun c => c ≠ '/'),
      ((furl ++ '/' :: remote).drop 7).dropWhile (fun c => c ≠ '/'), ?_⟩⟩
  · rw [movePooled, hps, hpd]
    exact List.mem_cons_self _ _
  · rw [moveLegacy, hps, hpd]
    exact List.mem_cons_of_mem _ (List.mem_cons_of_mem _ (List.mem_cons_self _ _))

/-- Witness for `move_type_check_only` with two different endpoints. -/
theorem move_type_check_only_witness :
    movePooled ("root://serverA:1094//tmp").toList MoveSrc.otherType
      ("g").toList ⟨none, none, none⟩ = (some .cantMove, []) ∧
    moveLegacy ("root://serverA:1094//tmp").toList MoveSrc.otherType
      ("g").toList ⟨none, none, none⟩ = (some .cantMove, []) ∧
    (∃ ps pd, MCall.renameC ps pd ∈
      (movePooled ("root://serverA:1094//tmp").toList
        (.xrootdObj ("root://serverB:1095//data").toList ("f").toList)
        ("g").toList ⟨none, none, none⟩).2) ∧
    (∃ ps pd, MCall.renameC ps pd ∈
      (moveLegacy ("root://serverA:1094//tmp").toList
        (.xrootdObj ("root://serverB:1095//data").toList ("f").toList)
        ("g").toList ⟨none, none, none⟩).2) :=
  move_type_check_only ("root://serverA:1094//tmp").toList ("g").toList
    ("root://serverB:1095//data").toList ("f").toList ⟨none, none, none⟩
    (by decide) (by decide) rfl

/-- C6 counterexample: `Move` from an adapter at endpoint
`root://serverB:1095//data` to an adapter at the different endpoint
`root://serverA:1094//tmp` does not return `CantMove` — it issues the
remote rename (and the follow-up stat). -/
theorem move_cross_endpoint_attempts_rename :
    ("root://serverA:1094//tmp" : String) ≠ "root://serverB:1095//data" ∧
    (movePooled ("root://serverA:1094//tmp").toList
      (.xrootdObj ("root://serverB:1095//data").toList ("f").toList)
      ("g").toList ⟨none, none, none⟩).1 ≠ some .cantMove ∧
    (movePooled ("root://serverA:1094//tmp").toList
      (.xrootdObj ("root://serverB:1095//data").toList ("f").toList)
      ("g").toList ⟨none, none, none⟩).2 =
      [.renameC ("//data/f").toList ("//tmp/g").toList,
        .statC ("//tmp/g").toList] := by
  refine ⟨by decide, ?_, by decide⟩
  intro h
  exact absurd h (by decide)

end Xrootd
